import Mathlib

/-!
Verification of the temporal-alignment core of `robot_mapping_warehouses`.

The repository's visible sources are `src/interpolation/interpolate_vector.cpp`
(the wrapper `InterpolateDoubleVector`) and `src/main/main.cpp` (the pipeline
driver).  The interpolation kernel `interp_linear`, declared in
`interpolation/interp.hpp`, is not part of the visible sources; it is modelled
below from the specification (sections 4.1 and 7).  `double` values are
embedded as rationals (`ℚ`), so that linear interpolation is exact; the
float64-to-float32 narrowing performed by the pipeline driver is modelled as an
abstract conversion function applied uniformly to all pose fields.
-/

/-- Error condition of the Interpolator, from the spec's error-handling design:
empty or length-mismatched source series fail with `InvalidInput`. -/
inductive InterpError where
  | invalidInput
deriving DecidableEq

/-- Modelled from the spec: interpolation of a single query timestamp `t`
against the source samples `ps` (pairs of source timestamp and source value).
The bracketing pair `(t_i, t_{i+1})` with `t_i ≤ t ≤ t_{i+1}` is located by a
left-to-right scan; a degenerate segment (`t_i = t_{i+1}`) yields the left
sample's value; queries outside the source range are clamped to the nearest
boundary value (the spec leaves the extrapolation policy open; clamping is the
documented choice here). -/
def interpAt : List (ℚ × ℚ) → ℚ → ℚ
  | [], _ => 0
  | [p], _ => p.2
  | p :: q :: rest, t =>
    if t ≤ q.1 then
      if p.1 = q.1 then p.2
      else if t ≤ p.1 then p.2
      else p.2 + (q.2 - p.2) * (t - p.1) / (q.1 - p.1)
    else interpAt (q :: rest) t

/-- Modelled from the spec: the interpolation kernel `interp_linear` of
`interpolation/interp.hpp`, which is not among the visible sources.  Contract
(spec section 4.1): given source timestamps and source values of equal length
`M ≥ 1` and `Q` query timestamps, return `Q` interpolated values in query
order; an empty or length-mismatched source series fails with the explicit
`InvalidInput` condition (spec section 7) instead of returning a result. -/
def interp_linear (time data time_reference : List ℚ) :
    Except InterpError (List ℚ) :=
  if time.length = 0 ∨ time.length ≠ data.length then
    Except.error InterpError.invalidInput
  else
    Except.ok (time_reference.map (fun t => interpAt (time.zip data) t))

/-- Embedding of `InterpolateDoubleVector`
(`src/interpolation/interpolate_vector.cpp`): the kernel `interp_linear` is
applied to the raw arrays, and the result array's first `time_reference_size`
entries are copied one by one into the returned vector. -/
def InterpolateDoubleVector (time data time_reference : List ℚ) :
    Except InterpError (List ℚ) :=
  match interp_linear time data time_reference with
  | Except.error e => Except.error e
  | Except.ok data_interp_array =>
      Except.ok ((List.range time_reference.length).foldl
        (fun data_interp i => data_interp.concat (data_interp_array.getD i 0)) [])

/-- Copying the first `n` entries of a list by index accumulates the same list
as mapping the indexed read over `range n`. -/
theorem foldl_concat_getD (arr : List ℚ) (n : Nat) :
    (List.range n).foldl (fun acc i => acc.concat (arr.getD i 0)) [] =
      (List.range n).map (fun i => arr.getD i 0) := by
  have h : ∀ (l : List Nat) (acc : List ℚ),
      l.foldl (fun acc i => acc.concat (arr.getD i 0)) acc =
        acc ++ l.map (fun i => arr.getD i 0) := by
    intro l
    induction l with
    | nil => intro acc; simp
    | cons x xs ih =>
        intro acc
        rw [List.foldl_cons, ih]
        simp
  simpa using h (List.range n) []

/-- Reading every index of a list in order reproduces the list. -/
theorem map_getD_range (arr : List ℚ) :
    (List.range arr.length).map (fun i => arr.getD i 0) = arr := by
  apply List.ext_getElem
  · simp
  · intro i h1 h2
    simp [List.getD_eq_getElem?_getD, List.getElem?_eq_getElem h2]

/-- The wrapper `InterpolateDoubleVector` returns exactly the kernel's result:
the copy loop reproduces the kernel's output array. -/
theorem InterpolateDoubleVector_eq (time data time_reference : List ℚ) :
    InterpolateDoubleVector time data time_reference =
      interp_linear time data time_reference := by
  unfold InterpolateDoubleVector
  split
  next e heq => rw [heq]
  next arr heq =>
    rw [heq]
    have hl : time_reference.length = arr.length := by
      unfold interp_linear at heq
      split at heq
      · simp at heq
      · injection heq with h
        rw [← h]
        simp
    rw [foldl_concat_getD, hl, map_getD_range]

/-- On a valid source series (nonempty, lengths matching), the wrapper returns
the pointwise interpolation of the query timestamps. -/
theorem InterpolateDoubleVector_ok (time data time_reference : List ℚ)
    (ht : time ≠ []) (hlen : time.length = data.length) :
    InterpolateDoubleVector time data time_reference =
      Except.ok (time_reference.map (fun t => interpAt (time.zip data) t)) := by
  rw [InterpolateDoubleVector_eq]
  unfold interp_linear
  have h0 : ¬ (time.length = 0 ∨ time.length ≠ data.length) := by
    push_neg
    constructor
    · simpa using ht
    · exact hlen
  rw [if_neg h0]

/-- C1: calling the Interpolator with an empty source series (`M = 0` source
timestamps and values) fails with the explicit `InvalidInput` condition and
never returns a result. -/
theorem interp_empty_source_invalid (time_reference : List ℚ) :
    InterpolateDoubleVector [] [] time_reference =
        Except.error InterpError.invalidInput ∧
      ∀ out : List ℚ,
        InterpolateDoubleVector [] [] time_reference ≠ Except.ok out := by
  constructor
  · rw [InterpolateDoubleVector_eq]
    simp [interp_linear]
  · intro out h
    rw [InterpolateDoubleVector_eq] at h
    simp [interp_linear] at h

/-- C3: robot poses at times `[0, 1, 2]` with x values `[0, 10, 20]`, detection
query times `[0.5, 1.5]`: the synchronized x channel is `[5, 15]`. -/
theorem interp_example_scenario :
    InterpolateDoubleVector [0, 1, 2] [0, 10, 20] [1/2, 3/2] =
      Except.ok [5, 15] := by
  rw [InterpolateDoubleVector_ok _ _ _ (by simp) (by simp)]
  norm_num [interpAt, List.zip]

/-- 2D pose record (`object_tracking/data_types/pose_2d.h`): the source stores
the three fields as `float` (float32); they are embedded as `ℚ`. -/
structure Pose2D where
  x : ℚ
  y : ℚ
  orientation : ℚ
deriving DecidableEq

/-- Robot pose record with its timestamp, as consumed by `main`. -/
structure TimedRobotPose where
  time : ℚ
  pose_2d : Pose2D
deriving DecidableEq

/-- Detection record with its timestamp; the detection payload is opaque to
the core (only the timestamp is read by `main`). -/
structure TimedDetectionPoses (α : Type) where
  time : ℚ
  detections : List α

/-- Default record used for indexed reads in theorem statements. -/
def defaultTimedRobotPose : TimedRobotPose :=
  { time := 0, pose_2d := { x := 0, y := 0, orientation := 0 } }

/-- Embedding of the synchronization core of `main`
(`src/main/main.cpp`, lines 29-60): extract the detection timestamps and the
four robot channels, interpolate the three value channels onto the detection
timestamps, and reassemble one `TimedRobotPose` per detection timestamp.  The
`float(...)` narrowing applied to each interpolated value in the source is
modelled by the abstract conversion `narrow`, applied identically to all three
fields. -/
def synchronize {α : Type} (narrow : ℚ → ℚ) (robot_poses : List TimedRobotPose)
    (detections : List (TimedDetectionPoses α)) :
    Except InterpError (List TimedRobotPose) :=
  let time_data_detection := detections.map (fun d => d.time)
  let time_data_robot := robot_poses.map (fun p => p.time)
  let data_x_robot := robot_poses.map (fun p => p.pose_2d.x)
  let data_y_robot := robot_poses.map (fun p => p.pose_2d.y)
  let data_orientation_robot := robot_poses.map (fun p => p.pose_2d.orientation)
  do
    let data_x_interp_vector ←
      InterpolateDoubleVector time_data_robot data_x_robot time_data_detection
    let data_y_interp_vector ←
      InterpolateDoubleVector time_data_robot data_y_robot time_data_detection
    let data_orientation_interp_vector ←
      InterpolateDoubleVector time_data_robot data_orientation_robot time_data_detection
    return (List.range time_data_detection.length).map (fun i =>
      { time := time_data_detection.getD i 0,
        pose_2d :=
          { x := narrow (data_x_interp_vector.getD i 0),
            y := narrow (data_y_interp_vector.getD i 0),
            orientation := narrow (data_orientation_interp_vector.getD i 0) } })

/-- With a nonempty robot-pose series, the synchronization core succeeds and
its output is the reassembly of the three interpolated channels. -/
theorem synchronize_ok {α : Type} (narrow : ℚ → ℚ)
    (robot_poses : List TimedRobotPose)
    (detections : List (TimedDetectionPoses α)) (h : robot_poses ≠ []) :
    synchronize narrow robot_poses detections = Except.ok
      ((List.range (detections.map (fun d => d.time)).length).map (fun i =>
        ({ time := (detections.map (fun d => d.time)).getD i 0,
           pose_2d :=
             { x := narrow (((detections.map (fun d => d.time)).map
                 (fun t => interpAt ((robot_poses.map (fun p => p.time)).zip
                   (robot_poses.map (fun p => p.pose_2d.x))) t)).getD i 0),
               y := narrow (((detections.map (fun d => d.time)).map
                 (fun t => interpAt ((robot_poses.map (fun p => p.time)).zip
                   (robot_poses.map (fun p => p.pose_2d.y))) t)).getD i 0),
               orientation := narrow (((detections.map (fun d => d.time)).map
                 (fun t => interpAt ((robot_poses.map (fun p => p.time)).zip
                   (robot_poses.map (fun p => p.pose_2d.orientation))) t)).getD i 0) } }
          : TimedRobotPose))) := by
  have hmap : robot_poses.map (fun p => p.time) ≠ [] := by
    simpa using h
  simp only [synchronize]
  rw [InterpolateDoubleVector_ok _ _ _ hmap (by simp),
      InterpolateDoubleVector_ok _ _ _ hmap (by simp),
      InterpolateDoubleVector_ok _ _ _ hmap (by simp)]
  rfl

/-- C2: for every robot-pose series of length `N ≥ 1` and every
detection-timestamp series of length `Q ≥ 0`, the synchronization step returns
exactly `Q` `TimedRobotPose` records. -/
theorem synchronize_length {α : Type} (narrow : ℚ → ℚ)
    (robot_poses : List TimedRobotPose)
    (detections : List (TimedDetectionPoses α)) (h : robot_poses ≠ []) :
    ∃ out, synchronize narrow robot_poses detections = Except.ok out ∧
      out.length = detections.length := by
  refine ⟨_, synchronize_ok narrow robot_poses detections h, ?_⟩
  simp

/-- C2 witness: a concrete run with one robot pose and two detections yields
exactly two records. -/
theorem synchronize_length_witness :
    ∃ out, synchronize (α := Unit) id
        [{ time := 0, pose_2d := { x := 1, y := 2, orientation := 3 } }]
        [{ time := 0, detections := [] }, { time := 1, detections := [] }] =
        Except.ok out ∧ out.length = 2 :=
  synchronize_length id _ _ (by simp)

/-- Indexed read of a map over `range n` below the length. -/
theorem getD_range_map {β : Type} (f : Nat → β) (n i : Nat) (hi : i < n)
    (d : β) : ((List.range n).map f).getD i d = f i := by
  simp [List.getD_eq_getElem?_getD, List.getElem?_range hi]

/-- Indexed read of a mapped list below the length. -/
theorem getD_map_lt {β γ : Type} (g : β → γ) (l : List β) (i : Nat)
    (hi : i < l.length) (d : γ) (e : β) :
    (l.map g).getD i d = g (l.getD i e) := by
  simp [List.getD_eq_getElem?_getD, List.getElem?_eq_getElem hi]

/-- C6: output record `i` of the Synchronizer is
`TimedRobotPose(query_times[i], Pose2D(x_interp[i], y_interp[i],
orientation_interp[i]))`, with the same narrowing conversion `narrow` applied
to all three interpolated channels. -/
theorem synchronize_record {α : Type} (narrow : ℚ → ℚ)
    (robot_poses : List TimedRobotPose)
    (detections : List (TimedDetectionPoses α))
    (h : robot_poses ≠ []) (i : Nat) (hi : i < detections.length) :
    ∃ xs ys os out,
      InterpolateDoubleVector (robot_poses.map (fun p => p.time))
          (robot_poses.map (fun p => p.pose_2d.x))
          (detections.map (fun d => d.time)) = Except.ok xs ∧
      InterpolateDoubleVector (robot_poses.map (fun p => p.time))
          (robot_poses.map (fun p => p.pose_2d.y))
          (detections.map (fun d => d.time)) = Except.ok ys ∧
      InterpolateDoubleVector (robot_poses.map (fun p => p.time))
          (robot_poses.map (fun p => p.pose_2d.orientation))
          (detections.map (fun d => d.time)) = Except.ok os ∧
      synchronize narrow robot_poses detections = Except.ok out ∧
      out.getD i defaultTimedRobotPose =
        { time := (detections.map (fun d => d.time)).getD i 0,
          pose_2d :=
            { x := narrow (xs.getD i 0),
              y := narrow (ys.getD i 0),
              orientation := narrow (os.getD i 0) } } := by
  have hmap : robot_poses.map (fun p => p.time) ≠ [] := by
    simpa using h
  refine ⟨_, _, _, _,
    InterpolateDoubleVector_ok _ _ _ hmap (by simp),
    InterpolateDoubleVector_ok _ _ _ hmap (by simp),
    InterpolateDoubleVector_ok _ _ _ hmap (by simp),
    synchronize_ok narrow robot_poses detections h, ?_⟩
  have hi' : i < (detections.map (fun d => d.time)).length := by
    simpa using hi
  rw [getD_range_map _ _ _ hi']

/-- Concrete robot pose used by witness instantiations. -/
def wRobotPose : TimedRobotPose :=
  { time := 0, pose_2d := { x := 1, y := 2, orientation := 3 } }

/-- Concrete detection record used by witness instantiations. -/
def wDetection : TimedDetectionPoses Unit :=
  { time := 5, detections := [] }

/-- C6 witness: one robot pose, one detection, identity narrowing. -/
theorem synchronize_record_witness :
    ∃ xs ys os out,
      InterpolateDoubleVector ([wRobotPose].map (fun p => p.time))
          ([wRobotPose].map (fun p => p.pose_2d.x))
          ([wDetection].map (fun d => d.time)) = Except.ok xs ∧
      InterpolateDoubleVector ([wRobotPose].map (fun p => p.time))
          ([wRobotPose].map (fun p => p.pose_2d.y))
          ([wDetection].map (fun d => d.time)) = Except.ok ys ∧
      InterpolateDoubleVector ([wRobotPose].map (fun p => p.time))
          ([wRobotPose].map (fun p => p.pose_2d.orientation))
          ([wDetection].map (fun d => d.time)) = Except.ok os ∧
      synchronize id [wRobotPose] [wDetection] = Except.ok out ∧
      out.getD 0 defaultTimedRobotPose =
        { time := ([wDetection].map (fun d => d.time)).getD 0 0,
          pose_2d :=
            { x := id (xs.getD 0 0),
              y := id (ys.getD 0 0),
              orientation := id (os.getD 0 0) } } :=
  synchronize_record id [wRobotPose] [wDetection] (by simp) 0 (by simp)

/-- C7: output value `i` of the Interpolator is the interpolation of query
timestamp `i` (no sorting of the queries), and reading the queries through any
index selection permutes the output identically. -/
theorem interp_order_preservation (time data qs : List ℚ) (idxs : List Nat)
    (ht : time ≠ []) (hlen : time.length = data.length)
    (hidx : ∀ i ∈ idxs, i < qs.length) :
    ∃ out out',
      InterpolateDoubleVector time data qs = Except.ok out ∧
      InterpolateDoubleVector time data (idxs.map (fun i => qs.getD i 0)) =
        Except.ok out' ∧
      (∀ i, i < qs.length →
        out.getD i 0 = interpAt (time.zip data) (qs.getD i 0)) ∧
      out' = idxs.map (fun i => out.getD i 0) := by
  refine ⟨_, _, InterpolateDoubleVector_ok _ _ _ ht hlen,
    InterpolateDoubleVector_ok _ _ _ ht hlen, ?_, ?_⟩
  · intro i hi
    rw [getD_map_lt _ _ _ hi 0 0]
  · rw [List.map_map]
    apply List.map_congr_left
    intro i hi
    rw [getD_map_lt _ _ _ (hidx i hi) 0 0]
    rfl

/-- C7 witness: swapping the two query timestamps swaps the two outputs. -/
theorem interp_order_preservation_witness :
    ∃ out out',
      InterpolateDoubleVector [0, 1] [0, 10] [0, 1] = Except.ok out ∧
      InterpolateDoubleVector [0, 1] [0, 10]
          ([1, 0].map (fun i => ([0, 1] : List ℚ).getD i 0)) =
        Except.ok out' ∧
      (∀ i, i < ([0, 1] : List ℚ).length →
        out.getD i 0 =
          interpAt (([0, 1] : List ℚ).zip [0, 10]) (([0, 1] : List ℚ).getD i 0)) ∧
      out' = [1, 0].map (fun i => out.getD i 0) :=
  interp_order_preservation [0, 1] [0, 10] [0, 1] [1, 0]
    (by simp) (by simp) (by decide)

/-- Unfolding of `interpAt` on a single source sample. -/
theorem interpAt_singleton (p : ℚ × ℚ) (t : ℚ) : interpAt [p] t = p.2 := rfl

/-- Unfolding of `interpAt` on at least two source samples. -/
theorem interpAt_cons_cons (p q : ℚ × ℚ) (rest : List (ℚ × ℚ)) (t : ℚ) :
    interpAt (p :: q :: rest) t =
      if t ≤ q.1 then
        if p.1 = q.1 then p.2
        else if t ≤ p.1 then p.2
        else p.2 + (q.2 - p.2) * (t - p.1) / (q.1 - p.1)
      else interpAt (q :: rest) t := rfl

/-- Under non-decreasing source timestamps, interpolating at a query that
occurs among the source timestamps returns the value of the first source
sample carrying that timestamp. -/
theorem interpAt_find_first (ps : List (ℚ × ℚ)) (t : ℚ)
    (hs : ps.Pairwise (fun a b => a.1 ≤ b.1)) (p : ℚ × ℚ)
    (hf : ps.find? (fun r => decide (r.1 = t)) = some p) :
    interpAt ps t = p.2 := by
  induction ps generalizing p with
  | nil => simp at hf
  | cons hd tl ih =>
    rcases List.pairwise_cons.mp hs with ⟨hhd, htl⟩
    by_cases hhdt : hd.1 = t
    · rw [List.find?_cons_of_pos _ (by simpa using hhdt)] at hf
      injection hf with h
      subst h
      cases tl with
      | nil => exact interpAt_singleton hd t
      | cons q rest =>
        have h1 : t ≤ q.1 := hhdt ▸ hhd q (by simp)
        rw [interpAt_cons_cons, if_pos h1]
        by_cases he : hd.1 = q.1
        · rw [if_pos he]
        · rw [if_neg he, if_pos (le_of_eq hhdt.symm)]
    · rw [List.find?_cons_of_neg _ (by simpa using hhdt)] at hf
      cases tl with
      | nil => simp at hf
      | cons q rest =>
        by_cases hle : t ≤ q.1
        · have hpt : p.1 = t := by
            have := List.find?_some hf
            simpa using this
          have hq1 : q.1 = t := by
            by_contra hne
            have hmem := List.mem_of_find?_eq_some hf
            rcases List.pairwise_cons.mp htl with ⟨hq, _⟩
            rcases List.mem_cons.mp hmem with h | h
            · exact hne (h ▸ hpt)
            · have hqp : q.1 ≤ p.1 := hq p h
              have hlt : t < q.1 :=
                lt_of_le_of_ne hle (fun h' => hne h'.symm)
              rw [hpt] at hqp
              exact absurd hqp (not_le.mpr hlt)
          have hfq : (q :: rest).find? (fun r => decide (r.1 = t)) = some q :=
            List.find?_cons_of_pos _ (by simpa using hq1)
          rw [hfq] at hf
          injection hf with h
          subst h
          have hhdq : hd.1 ≤ t := hhd q (by simp) |>.trans (le_of_eq hq1)
          have hdlt : hd.1 < t := lt_of_le_of_ne hhdq hhdt
          rw [interpAt_cons_cons, if_pos hle,
            if_neg (fun h => hhdt (h.trans hq1)),
            if_neg (not_le.mpr hdlt), hq1]
          have hne0 : t - hd.1 ≠ 0 := sub_ne_zero.mpr (ne_of_gt hdlt)
          rw [mul_div_assoc, div_self hne0, mul_one]
          ring
        · rw [interpAt_cons_cons, if_neg hle]
          exact ih htl p hf

/-- Non-decreasing source timestamps make the zipped sample list pairwise
non-decreasing in its first component. -/
theorem pairwise_zip_of_pairwise (time data : List ℚ)
    (hlen : time.length = data.length)
    (hs : time.Pairwise (fun a b => a ≤ b)) :
    (time.zip data).Pairwise (fun a b => a.1 ≤ b.1) := by
  have hmap : (time.zip data).map Prod.fst = time :=
    List.map_fst_zip time data (le_of_eq hlen)
  rw [← hmap] at hs
  exact List.pairwise_map.mp hs

/-- C4 (amended): for a source series with non-decreasing timestamps and a
query timestamp equal to some source timestamp, the interpolated value equals
the source value at the first index carrying that timestamp (expressed through
`find?` on the zipped samples). -/
theorem interp_exact_match (time data qs : List ℚ)
    (hlen : time.length = data.length)
    (hs : time.Pairwise (fun a b => a ≤ b))
    (j : Nat) (hj : j < qs.length) (p : ℚ × ℚ)
    (hfind : (time.zip data).find? (fun r => decide (r.1 = qs.getD j 0)) =
      some p) :
    ∃ out, InterpolateDoubleVector time data qs = Except.ok out ∧
      out.getD j 0 = p.2 := by
  have hne : time ≠ [] := by
    intro h
    subst h
    simp at hfind
  refine ⟨_, InterpolateDoubleVector_ok _ _ _ hne hlen, ?_⟩
  rw [getD_map_lt _ _ _ hj 0 0]
  exact interpAt_find_first _ _ (pairwise_zip_of_pairwise _ _ hlen hs) p hfind

/-- C4 witness: query timestamp `1` matches source index `1`, and the output
is the source value `10` there. -/
theorem interp_exact_match_witness :
    ∃ out, InterpolateDoubleVector [0, 1, 2] [0, 10, 20] [1] = Except.ok out ∧
      out.getD 0 0 = ((1 : ℚ), (10 : ℚ)).2 :=
  interp_exact_match [0, 1, 2] [0, 10, 20] [1] (by simp) (by norm_num)
    0 (by simp) (1, 10) (by norm_num [List.zip, List.find?])

/-- C4 counterexample: `times = [5, 5]`, `values = [1, 2]`: the query `5`
equals the source timestamp at index `1`, yet the result is `1`, not the
source value `2` at that index; the claim fails for a non-first matching
index. -/
theorem interp_exact_match_counterexample :
    InterpolateDoubleVector [5, 5] [1, 2] [5] = Except.ok [1] ∧
      ([5, 5] : List ℚ).getD 1 0 = 5 ∧ ([1, 2] : List ℚ).getD 1 0 ≠ 1 := by
  refine ⟨?_, by norm_num, by norm_num⟩
  rw [InterpolateDoubleVector_ok _ _ _ (by simp) (by simp)]
  norm_num [interpAt_cons_cons, List.zip]

/-- If a Boolean predicate first holds at index `i` of a list, `find?` returns
the element at index `i`. -/
theorem find?_of_first_index {β : Type} (l : List β) (p : β → Bool) (d : β)
    (i : Nat) (hi : i < l.length) (hp : p (l.getD i d) = true)
    (hfirst : ∀ j, j < i → p (l.getD j d) = false) :
    l.find? p = some (l.getD i d) := by
  induction l generalizing i with
  | nil => simp at hi
  | cons hd tl ih =>
    cases i with
    | zero =>
      rw [List.getD_cons_zero] at hp ⊢
      exact List.find?_cons_of_pos _ hp
    | succ n =>
      have h0 : p hd = false := by
        have h := hfirst 0 (Nat.succ_pos n)
        rwa [List.getD_cons_zero] at h
      rw [List.find?_cons_of_neg _ (by simp [h0]), List.getD_cons_succ]
      apply ih n
      · simpa using hi
      · rwa [List.getD_cons_succ] at hp
      · intro j hj
        have h := hfirst (j + 1) (Nat.succ_lt_succ hj)
        rwa [List.getD_cons_succ] at h

/-- Indexed read of a zipped pair of lists below both lengths. -/
theorem getD_zip (time data : List ℚ) (i : Nat) (hi : i < time.length)
    (hd : i < data.length) :
    (time.zip data).getD i (0, 0) = (time.getD i 0, data.getD i 0) := by
  simp [List.getD_eq_getElem?_getD, List.zip, List.getElem?_zipWith,
    List.getElem?_eq_getElem hi, List.getElem?_eq_getElem hd]

/-- C5 (amended): under non-decreasing source timestamps, when index `i` is
the first occurrence of its timestamp and segment `(i, i+1)` is degenerate
(`t_i = t_{i+1}`), interpolating at that timestamp takes the guarded
degenerate branch and returns the left sample's value `v_i` exactly (no
division is involved in that branch). -/
theorem interp_degenerate_segment (time data qs : List ℚ) (i : Nat)
    (hlen : time.length = data.length)
    (hs : time.Pairwise (fun a b => a ≤ b))
    (hi1 : i + 1 < time.length)
    (hdup : time.getD i 0 = time.getD (i + 1) 0)
    (hfirst : ∀ j, j < i → time.getD j 0 ≠ time.getD i 0)
    (j : Nat) (hj : j < qs.length) (hq : qs.getD j 0 = time.getD i 0) :
    ∃ out, InterpolateDoubleVector time data qs = Except.ok out ∧
      out.getD j 0 = data.getD i 0 := by
  have hi : i < time.length := Nat.lt_of_succ_lt hi1
  have hid : i < data.length := hlen ▸ hi
  have hiz : i < (time.zip data).length := by
    rw [List.length_zip, hlen, Nat.min_self]
    exact hlen ▸ hi
  have hgz : (time.zip data).getD i (0, 0) = (time.getD i 0, data.getD i 0) :=
    getD_zip time data i hi hid
  have hfind : (time.zip data).find? (fun r => decide (r.1 = qs.getD j 0)) =
      some (time.getD i 0, data.getD i 0) := by
    rw [← hgz]
    apply find?_of_first_index _ _ (0, 0) i hiz
    · rw [hgz]
      show decide (time.getD i 0 = qs.getD j 0) = true
      rw [hq]
      simp
    · intro k hk
      have hkz : k < time.length := lt_trans hk hi
      have hkd : k < data.length := hlen ▸ hkz
      rw [getD_zip time data k hkz hkd]
      show decide (time.getD k 0 = qs.getD j 0) = false
      rw [hq]
      exact decide_eq_false (hfirst k hk)
  have hne : time ≠ [] := by
    intro h
    subst h
    simp at hi
  refine ⟨_, InterpolateDoubleVector_ok _ _ _ hne hlen, ?_⟩
  rw [getD_map_lt _ _ _ hj 0 0]
  exact interpAt_find_first _ _ (pairwise_zip_of_pairwise _ _ hlen hs) _ hfind

/-- C5 witness: source `times = [5, 5]`, `values = [1, 2]`, query `[5]` yields
`1`, the left sample of the degenerate segment (the claim's own concrete
instance). -/
theorem interp_degenerate_segment_witness :
    ∃ out, InterpolateDoubleVector [5, 5] [1, 2] [5] = Except.ok out ∧
      out.getD 0 0 = ([1, 2] : List ℚ).getD 0 0 :=
  interp_degenerate_segment [5, 5] [1, 2] [5] 0 (by simp) (by simp)
    (by simp) (by norm_num) (by intro j hj; exact absurd hj (Nat.not_lt_zero j))
    0 (by simp) (by norm_num)

/-- C5 counterexample: `times = [5, 5, 5]`, `values = [1, 2, 3]` has a
degenerate segment at `i = 1` (`t_1 = t_2 = 5`) with left sample value `2`,
yet interpolating at `5` returns `1`; so the claim is false when quantified
over every degenerate segment. -/
theorem interp_degenerate_counterexample :
    InterpolateDoubleVector [5, 5, 5] [1, 2, 3] [5] = Except.ok [1] ∧
      ([5, 5, 5] : List ℚ).getD 1 0 = ([5, 5, 5] : List ℚ).getD 2 0 ∧
      ([1, 2, 3] : List ℚ).getD 1 0 ≠ 1 := by
  refine ⟨?_, by norm_num, by norm_num⟩
  rw [InterpolateDoubleVector_ok _ _ _ (by simp) (by simp)]
  norm_num [interpAt_cons_cons, List.zip]

/-- The three vectors that `InterpolateDoubleVector` receives by non-const
reference, viewed as mutable state. -/
structure VecState where
  time : List ℚ
  data : List ℚ
  time_reference : List ℚ
deriving DecidableEq

/-- State-passing embedding of the body of `InterpolateDoubleVector`: the
pointers taken at the start of the body are only read (the kernel is read-only
over its inputs, and the copy loop writes only the local result vector), so
every step threads the state through without writing it. -/
def InterpolateDoubleVectorRun (s : VecState) :
    Except InterpError (List ℚ) × VecState :=
  match interp_linear s.time s.data s.time_reference with
  | Except.error e => (Except.error e, s)
  | Except.ok data_interp_array =>
      (Except.ok ((List.range s.time_reference.length).foldl
        (fun data_interp i => data_interp.concat (data_interp_array.getD i 0))
        []),
       s)

/-- C8: `InterpolateDoubleVector` is side-effect-free: the three vectors
passed by non-const reference are unchanged after the call, and the returned
value is the pure function of those inputs alone. -/
theorem interpolate_no_side_effects (s : VecState) :
    (InterpolateDoubleVectorRun s).2 = s ∧
      (InterpolateDoubleVectorRun s).1 =
        InterpolateDoubleVector s.time s.data s.time_reference := by
  cases h : interp_linear s.time s.data s.time_reference with
  | error e =>
      constructor
      · simp [InterpolateDoubleVectorRun, h]
      · simp [InterpolateDoubleVectorRun, InterpolateDoubleVector, h]
  | ok arr =>
      constructor
      · simp [InterpolateDoubleVectorRun, h]
      · simp [InterpolateDoubleVectorRun, InterpolateDoubleVector, h]

/-- Observable external actions of one run of `main` (`src/main/main.cpp`):
the input read, the artifact writes, and the three tracker operations. -/
inductive Event where
  | readJson (path : String)
  | writeRobotPoses (path : String)
  | writeDetections (path : String)
  | trackerUpdate
  | trackerProduce
  | trackerGet
  | writeResults (path : String)
deriving DecidableEq

/-- Position of the last `/` or `\` in a character list, as computed by
`path.find_last_of` in `Dirname` (`src/main/main.cpp`, line 13). -/
def find_last_of_seps : List Char → Option Nat
  | [] => none
  | c :: cs =>
    match find_last_of_seps cs with
    | some i => some (i + 1)
    | none => if c = '/' ∨ c = '\\' then some 0 else none

/-- Embedding of `Dirname` (`src/main/main.cpp`, lines 11-17): the substring
before the last path separator, or `"."` when there is none. -/
def Dirname (path : String) : String :=
  match find_last_of_seps path.data with
  | none => "."
  | some pos => String.mk (path.data.take pos)

/-- Input path resolution (`src/main/main.cpp`, line 24): the first
command-line argument when present, otherwise the default path. -/
def inputPathOf (args : List String) : String :=
  match args with
  | [] => "main/data.json"
  | a :: _ => a

/-- Straight-line trace of the externally observable actions of one completed
run of `main` (`src/main/main.cpp`, lines 19-76), in program order. -/
def mainEvents (args : List String) : List Event :=
  let input_path := inputPathOf args
  let base_dir := Dirname input_path
  [Event.readJson input_path,
   Event.writeRobotPoses (base_dir ++ "/robot_poses.json"),
   Event.writeDetections (base_dir ++ "/detections.json"),
   Event.trackerUpdate,
   Event.trackerProduce,
   Event.trackerGet,
   Event.writeResults (base_dir ++ "/detections_output.json")]

/-- Selects the tracker operations out of a trace. -/
def isTrackerEvent : Event → Bool
  | Event.trackerUpdate => true
  | Event.trackerProduce => true
  | Event.trackerGet => true
  | _ => false

/-- C9: in every completed run, the tracker operations occur in the fixed
order `Update`, `ProduceDetectionPosesInGlobalCs`,
`GetLoadCarriersPosesInCsGlobal`, each exactly once. -/
theorem tracker_call_protocol (args : List String) :
    (mainEvents args).filter isTrackerEvent =
      [Event.trackerUpdate, Event.trackerProduce, Event.trackerGet] := rfl

/-- The file paths written by a trace, in order. -/
def writePaths (evs : List Event) : List String :=
  evs.filterMap (fun e =>
    match e with
    | Event.writeRobotPoses p => some p
    | Event.writeDetections p => some p
    | Event.writeResults p => some p
    | _ => none)

/-- A character list without separators has no last-separator position. -/
theorem find_last_of_seps_none (cs : List Char)
    (h : ∀ c ∈ cs, c ≠ '/' ∧ c ≠ '\\') : find_last_of_seps cs = none := by
  induction cs with
  | nil => rfl
  | cons c cs ih =>
    have hc := h c (by simp)
    have hcs : ∀ d ∈ cs, d ≠ '/' ∧ d ≠ '\\' := fun d hd => h d (by simp [hd])
    unfold find_last_of_seps
    rw [ih hcs, if_neg]
    rintro (h1 | h2)
    · exact hc.1 h1
    · exact hc.2 h2

/-- When the only separator after the prefix is the distinguished one, the
last-separator position is the prefix length. -/
theorem find_last_of_seps_append (pre suff : List Char) (c : Char)
    (hc : c = '/' ∨ c = '\\')
    (hsuff : ∀ d ∈ suff, d ≠ '/' ∧ d ≠ '\\') :
    find_last_of_seps (pre ++ c :: suff) = some pre.length := by
  induction pre with
  | nil =>
    show find_last_of_seps (c :: suff) = some 0
    unfold find_last_of_seps
    rw [find_last_of_seps_none suff hsuff, if_pos hc]
  | cons a pre ih =>
    show find_last_of_seps (a :: (pre ++ c :: suff)) = some (pre.length + 1)
    unfold find_last_of_seps
    rw [ih]

/-- C10: with no command-line argument the input path is `main/data.json`;
`Dirname` returns the prefix before the last `/` or `\` separator (or `.`
with no separator); and every run writes exactly robot_poses.json,
detections.json and detections_output.json into that directory. -/
theorem main_file_paths :
    inputPathOf [] = "main/data.json" ∧
    (∀ p : String, (∀ c ∈ p.data, c ≠ '/' ∧ c ≠ '\\') → Dirname p = ".") ∧
    (∀ (pre suff : List Char) (c : Char), (c = '/' ∨ c = '\\') →
      (∀ d ∈ suff, d ≠ '/' ∧ d ≠ '\\') →
      Dirname (String.mk (pre ++ c :: suff)) = String.mk pre) ∧
    (∀ args : List String, writePaths (mainEvents args) =
      [Dirname (inputPathOf args) ++ "/robot_poses.json",
       Dirname (inputPathOf args) ++ "/detections.json",
       Dirname (inputPathOf args) ++ "/detections_output.json"]) := by
  refine ⟨rfl, ?_, ?_, ?_⟩
  · intro p hp
    unfold Dirname
    rw [find_last_of_seps_none p.data hp]
  · intro pre suff c hc hsuff
    unfold Dirname
    show (match find_last_of_seps (pre ++ c :: suff) with
      | none => "."
      | some pos => String.mk ((pre ++ c :: suff).take pos)) = String.mk pre
    rw [find_last_of_seps_append pre suff c hc hsuff]
    show String.mk ((pre ++ c :: suff).take pre.length) = String.mk pre
    rw [List.take_left]
  · intro args
    rfl

/-- C10 witness: the path `a/b` has directory `a`. -/
theorem main_file_paths_witness :
    Dirname (String.mk (['a'] ++ '/' :: ['b'])) = String.mk ['a'] :=
  main_file_paths.2.2.1 ['a'] ['b'] '/' (Or.inl rfl) (by decide)
